import Mathlib

/-!
Verification of the vulnerability-scan reconciliation core of the
nessus-reporting-metrics-demo repository, shallowly embedded in Lean 4.

Part 1: the Scan Diff Engine / remediation-state machine, embedding
`resolve_remediation_status` from src/etl/metrics/remediation_status_resolver.py.

A scan finding is a record (a Python dict).  The fields the engine reads or
writes are modelled explicitly; every other field of the record is bundled in
`rest`, so that "copy the record and change only remediation_status" is
expressible.  A field is `Option`-valued when the Python code may find it
absent (`v['asset_id']` raises `KeyError`; `.get('remediation_status')`
yields `None`).
-/

set_option autoImplicit false

namespace Nessus

/-- A finding record from one scan (Python dict). -/
structure Finding where
  asset_id : Option String
  plugin_id : Option String
  remediation_status : Option String
  rest : List (String × String)
deriving DecidableEq, Repr

/-- The (asset_id, plugin_id) key of a finding. -/
abbrev FKey := String × String

/-- Errors of the diff engine.  `malformedFindingKey` models the `KeyError`
raised by `v['asset_id']` / `v['plugin_id']` when the key field is missing
(the spec's `MalformedFindingKey`). -/
inductive DiffError where
  | malformedFindingKey
deriving DecidableEq, Repr

/-- Extract the lookup key `(v['asset_id'], v['plugin_id'])`; `none` when
either field is missing (the access would raise `KeyError`). -/
def keyOf (v : Finding) : Option FKey :=
  match v.asset_id, v.plugin_id with
  | some a, some p => some (a, p)
  | _, _ => none

/-- A Python dict keyed by `FKey`, as an insertion-ordered association list
with unique keys. -/
abbrev FDict := List (FKey × Finding)

/-- The keys of a dict, in insertion order. -/
def dictKeys (d : FDict) : List FKey := d.map Prod.fst

/-- Python dict assignment `d[k] = v`: overwrite in place if the key exists
(keeping its position), otherwise append. -/
def dictInsert (d : FDict) (k : FKey) (v : Finding) : FDict :=
  if d.any (fun kv => decide (kv.1 = k)) then
    d.map (fun kv => if kv.1 = k then (kv.1, v) else kv)
  else d ++ [(k, v)]

/-- Python `d[k]` / `k in d` on the dict. -/
def dictFind (d : FDict) (k : FKey) : Option Finding :=
  (d.find? (fun kv => decide (kv.1 = k))).map Prod.snd

/-- Build `{(v['asset_id'], v['plugin_id']): v for v in vs}`, failing like the
comprehension does when a key field is missing. -/
def buildDictAux (acc : FDict) : List Finding → Except DiffError FDict
  | [] => .ok acc
  | v :: vs =>
    match keyOf v with
    | none => .error .malformedFindingKey
    | some k => buildDictAux (dictInsert acc k v) vs

/-- Dict comprehension over a finding list (raises on a missing key field). -/
def buildDict (vs : List Finding) : Except DiffError FDict := buildDictAux [] vs

/-- Total variant of `buildDictAux` (skips keyless records); used to name the
dict that `buildDict` returns on success. -/
def dictOfAux (acc : FDict) : List Finding → FDict
  | [] => acc
  | v :: vs =>
    match keyOf v with
    | none => dictOfAux acc vs
    | some k => dictOfAux (dictInsert acc k v) vs

/-- The dict built from a finding list (total form). -/
def dictOf (vs : List Finding) : FDict := dictOfAux [] vs

/-- `vuln['remediation_status'] = s`, leaving every other field unchanged. -/
def setStatus (v : Finding) (s : String) : Finding :=
  { v with remediation_status := some s }

/-- The body of the first loop of `resolve_remediation_status`: annotate one
current-scan finding against the previous-scan lookup. -/
def annotateCurrent (prevDict : FDict) (v : Finding) : Finding :=
  match keyOf v with
  | some k =>
    match dictFind prevDict k with
    | some p =>
      if p.remediation_status = some "remediated" then setStatus v "reopened"
      else setStatus v "open"
    | none => setStatus v "open"
  | none => v

/-- `resolve_remediation_status(current_vulns, previous_vulns)` from
src/etl/metrics/remediation_status_resolver.py: build the previous and current
lookups (raising `MalformedFindingKey` on a missing key field), annotate every
current finding, then append a `remediated` copy of every previous record whose
key is absent from the current scan. -/
def resolve_remediation_status (current previous : List Finding) :
    Except DiffError (List Finding) :=
  match buildDict previous with
  | .error e => .error e
  | .ok prevDict =>
    match buildDict current with
    | .error e => .error e
    | .ok currDict =>
      .ok (current.map (annotateCurrent prevDict) ++
        (prevDict.filter (fun kv => decide (dictFind currDict kv.1 = none))).map
          (fun kv => setStatus kv.2 "remediated"))

/-- Every record of the list carries both key fields. -/
def allKeysPresent (vs : List Finding) : Prop :=
  ∀ v ∈ vs, (keyOf v).isSome

instance (vs : List Finding) : Decidable (allKeysPresent vs) :=
  inferInstanceAs (Decidable (∀ v ∈ vs, _))

/-- The keys occurring in a finding list. -/
def keysOf (vs : List Finding) : List FKey := vs.filterMap keyOf

/-- At most one finding per (asset_id, plugin_id) key. -/
def uniqKeys (vs : List Finding) : Prop := (keysOf vs).Nodup

instance (vs : List Finding) : Decidable (uniqKeys vs) :=
  inferInstanceAs (Decidable (List.Nodup _))

/-- How many records of the list carry the key `k`. -/
def countKey (vs : List Finding) (k : FKey) : Nat :=
  (vs.filter (fun v => decide (keyOf v = some k))).length

/-!
Part 2: the Fingerprint Resolver, embedding `_generate_asset_fingerprint`
from src/etl/loaders/supabase_timeseries_loader.py.

Python truthiness on the optional string arguments (`if mac_address:`) treats
both `None` and the empty string as absent, which `truthy` captures.
-/

/-- Python truthiness of an optional string: `None` and `""` are falsy. -/
def truthy : Option String → Bool
  | none => false
  | some s => s != ""

/-- Python `str.lower()`: lowercase character by character. -/
def str_lower (s : String) : String :=
  String.mk (s.data.map Char.toLower)

/-- `''.join(c for c in os_info if c.isalnum()).lower()`: keep only
alphanumeric characters, then lowercase. -/
def clean_os (s : String) : String :=
  String.mk ((s.data.filter Char.isAlphanum).map Char.toLower)

/-- `_generate_asset_fingerprint(hostname, ip_address, mac_address, os_info)`:
deterministic priority cascade MAC > IP+OS > IP+hostname > IP. -/
def generate_asset_fingerprint (hostname ip_address : String)
    (mac_address os_info : Option String) : String :=
  if truthy mac_address then "mac:" ++ str_lower (mac_address.getD "")
  else if truthy os_info then
    "ip_os:" ++ ip_address ++ ":" ++ clean_os (os_info.getD "")
  else if hostname != "" then
    "ip_host:" ++ ip_address ++ ":" ++ str_lower hostname
  else "ip:" ++ ip_address

/-!
Part 3: the Severity/Risk Normalizer.

Two distinct lookup tables exist in the source: `_map_severity_to_risk` in
src/etl/extractors/nessus_extractor.py (fallback `"Unknown"`) and the
`severity_mapping` dict used by `NessusTransformer.transform_vulnerabilities`
in src/etl/transformers/nessus_transformer.py (maps `"0"` to `"Info"` and
falls back to `"Info"`).
-/

/-- `_map_severity_to_risk(severity)`: `severity_map.get(severity, "Unknown")`
with the table 0/1/2/3/4 -> None/Low/Medium/High/Critical. -/
def map_severity_to_risk (severity : String) : String :=
  if severity = "0" then "None"
  else if severity = "1" then "Low"
  else if severity = "2" then "Medium"
  else if severity = "3" then "High"
  else if severity = "4" then "Critical"
  else "Unknown"

/-- The transformer's `self.severity_mapping.get(severity, "Info")` with the
table 0/1/2/3/4 -> Info/Low/Medium/High/Critical. -/
def transformer_severity_lookup (severity : String) : String :=
  if severity = "0" then "Info"
  else if severity = "1" then "Low"
  else if severity = "2" then "Medium"
  else if severity = "3" then "High"
  else if severity = "4" then "Critical"
  else "Info"

/-!
Part 4: the extractor `NessusExtractor.extract_vulnerabilities` from
src/etl/extractors/nessus_extractor.py, over a shallow model of the parsed
XML tree.  The embedded output record keeps the fields the claims reason
about (asset identification, severity code, risk); the remaining textual
and numeric fields of the Python dict are not referenced by any claim.
-/

/-- A string-keyed Python dict as an insertion-ordered association list. -/
abbrev PropDict := List (String × String)

/-- Python dict assignment `d[k] = v` for string dicts. -/
def propInsert (d : PropDict) (k v : String) : PropDict :=
  if d.any (fun kv => decide (kv.1 = k)) then
    d.map (fun kv => if kv.1 = k then (kv.1, v) else kv)
  else d ++ [(k, v)]

/-- Python `d.get(k, dflt)` for string dicts. -/
def propGet (d : PropDict) (k dflt : String) : String :=
  ((d.find? (fun kv => decide (kv.1 = k))).map Prod.snd).getD dflt

/-- A `<ReportItem>` element: the attributes the extractor reads.  An
attribute is `none` when absent (`report_item.get` then applies a default). -/
structure ReportItem where
  severity : Option String
  pluginID : Option String
  pluginName : Option String
deriving DecidableEq, Repr

/-- A `<ReportHost>` element: its `name` attribute, its `HostProperties`
tags in document order, and its `<ReportItem>` children. -/
structure ReportHost where
  name : Option String
  tags : List (String × String)
  items : List ReportItem
deriving DecidableEq, Repr

/-- An extracted vulnerability record (the claim-relevant fields of the
`vuln_data` dict built by `extract_vulnerabilities`). -/
structure VulnRecord where
  asset_name : String
  ip : String
  plugin_id : String
  vulnerability_name : String
  severity : String
  risk : String
deriving DecidableEq, Repr

/-- `_get_host_properties(report_host)`: a dict with `host-ip` set from the
host's `name` attribute, then one entry per `HostProperties` tag. -/
def get_host_properties (h : ReportHost) : PropDict :=
  h.tags.foldl (fun acc t => propInsert acc t.1 t.2)
    (propInsert [] "host-ip" (h.name.getD ""))

/-- The record built for one report item that passed the severity filter. -/
def extractItem (props : PropDict) (it : ReportItem) : VulnRecord :=
  { asset_name := propGet props "host-fqdn" (propGet props "host-ip" "")
    ip := propGet props "host-ip" ""
    plugin_id := it.pluginID.getD ""
    vulnerability_name := it.pluginName.getD ""
    severity := it.severity.getD "0"
    risk := map_severity_to_risk (it.severity.getD "0") }

/-- `extract_vulnerabilities()`: walk every host's report items, skip items
whose `severity` attribute (default `"0"`) equals `"0"`, and emit a record
for each remaining item. -/
def extract_vulnerabilities (hosts : List ReportHost) : List VulnRecord :=
  hosts.flatMap (fun h =>
    (h.items.filter (fun it => decide ((it.severity.getD "0") ≠ "0"))).map
      (extractItem (get_host_properties h)))

/-!
Part 5: the MTTR aggregator, embedding `MTTRCalculator.calculate_overall_mttr`
and `_calculate_mttr_fallback` from src/etl/metrics/mttr_calculator.py.

The Supabase RPC call is the only effect; it is modelled as the call's
outcome: `none` when `execute()` raises (the `except` branch returns `None`),
`some rows` otherwise, each row being the optional `mttr_days` value that
`result.data[0].get('mttr_days')` would read.  Day counts are rationals.
-/

/-- `_calculate_mttr_fallback()`: always returns the hardcoded placeholder
`30.0` (its `except` branch is unreachable: the body raises nothing). -/
def calculate_mttr_fallback : Option ℚ := some 30

/-- `calculate_overall_mttr()`: return `result.data[0].get('mttr_days')` when
the RPC yields at least one row, fall back to `_calculate_mttr_fallback()`
when it yields no rows, and return `None` when the call raises. -/
def calculate_overall_mttr (rpc : Option (List (Option ℚ))) : Option ℚ :=
  match rpc with
  | none => none
  | some rows =>
    match rows with
    | [] => calculate_mttr_fallback
    | r :: _ => r

/-!
Part 6: `MetricsGenerator.calculate_remediation_capacity` from
src/etl/metrics/metrics_generator.py.

The two count queries are modelled as their results (`Option ℕ`, `none` when
the client reports no count, matching `total_vulns.count or 0`).  Python's
`round(x, 2)` is modelled as decimal rounding half-to-even on rationals.
-/

/-- Round a rational to the nearest integer, ties to even (Python `round`). -/
def bankersRound (q : ℚ) : ℤ :=
  let f := ⌊q⌋
  if q - f < 1/2 then f
  else if q - f > 1/2 then f + 1
  else if Even f then f else f + 1

/-- Python `round(x, 2)`. -/
def round2 (q : ℚ) : ℚ := (bankersRound (q * 100) : ℚ) / 100

/-- The dict returned by `calculate_remediation_capacity`. -/
structure CapacityMetrics where
  total_vulnerabilities : ℤ
  open_vulnerabilities : ℤ
  remediated_vulnerabilities : ℤ
  remediation_rate_percentage : ℚ
  capacity_utilization : String
deriving DecidableEq, Repr

/-- `calculate_remediation_capacity()`: counts of all and of open findings,
`remediated = total - open`, and a percentage that is `0` when `total` is
not positive. -/
def calculate_remediation_capacity (totalRes openRes : Option ℕ) :
    CapacityMetrics :=
  let total_count : ℤ := (totalRes.getD 0 : ℤ)
  let open_count : ℤ := (openRes.getD 0 : ℤ)
  let remediated_count : ℤ := total_count - open_count
  let remediation_rate : ℚ :=
    if total_count > 0 then (remediated_count : ℚ) / (total_count : ℚ) * 100
    else 0
  { total_vulnerabilities := total_count
    open_vulnerabilities := open_count
    remediated_vulnerabilities := remediated_count
    remediation_rate_percentage := round2 remediation_rate
    capacity_utilization := "medium" }

/-!
Part 7: the asset loading batch loop, embedding
`SupabaseTimeSeriesLoader.upsert_asset` and `load_assets` from
src/etl/loaders/supabase_timeseries_loader.py.

The database function `upsert_asset` RPC is modelled as an oracle returning
the asset id the store would answer (`none` models "No asset ID returned from
upsert").  `Asset_Name` / `Asset_IP` are read with `.get(..., '')`, so a
missing attribute is the empty string.
-/

/-- The claim-relevant attributes of one asset dict. -/
structure AssetData where
  asset_name : String
  asset_ip : String
deriving DecidableEq, Repr

/-- Errors of the asset loading path.  `missingRequiredAttribute` models the
`ValueError("IP address is required for asset identification")`;
`upsertFailed` models every other raised failure of `upsert_asset`. -/
inductive LoadError where
  | missingRequiredAttribute
  | upsertFailed
deriving DecidableEq, Repr

/-- `upsert_asset(asset_data)`: raise when the IP address is missing,
otherwise consult the store and raise when it returns no asset id. -/
def upsert_asset (db : AssetData → Option String) (a : AssetData) :
    Except LoadError String :=
  if a.asset_ip = "" then .error .missingRequiredAttribute
  else
    match db a with
    | some i => .ok i
    | none => .error .upsertFailed

/-- `load_assets(assets)`: per-record loop that counts successful upserts and
`continue`s past any record whose upsert raised; only the count is returned. -/
def load_assets (db : AssetData → Option String) : List AssetData → Nat
  | [] => 0
  | a :: rest =>
    match upsert_asset db a with
    | .ok _ => 1 + load_assets db rest
    | .error _ => load_assets db rest

/-!
Part 8: supporting lemmas about the diff-engine embedding.
-/

theorem keyOf_setStatus (v : Finding) (s : String) :
    keyOf (setStatus v s) = keyOf v := rfl

theorem status_setStatus (v : Finding) (s : String) :
    (setStatus v s).remediation_status = some s := rfl

theorem keyOf_annotateCurrent (d : FDict) (v : Finding) :
    keyOf (annotateCurrent d v) = keyOf v := by
  cases hk : keyOf v with
  | none => simp [annotateCurrent, hk]
  | some k =>
    cases hf : dictFind d k with
    | none => simp [annotateCurrent, hk, hf, keyOf_setStatus]
    | some p =>
      by_cases hs : p.remediation_status = some "remediated" <;>
        simp [annotateCurrent, hk, hf, hs, keyOf_setStatus]

theorem dict_hasKey (d : FDict) (k : FKey) :
    d.any (fun kv => decide (kv.1 = k)) = true ↔ k ∈ dictKeys d := by
  simp [List.any_eq_true, dictKeys, List.mem_map]

theorem dictFind_eq_none (d : FDict) (k : FKey) :
    dictFind d k = none ↔ k ∉ dictKeys d := by
  unfold dictFind dictKeys
  rw [Option.map_eq_none', List.find?_eq_none]
  simp
  constructor
  · intro h x hx
    exact h k.1 k.2 x hx rfl
  · rintro h a b x hx rfl
    exact h x hx

theorem keysOf_mem_iff (vs : List Finding) (k : FKey) :
    k ∈ keysOf vs ↔ ∃ p ∈ vs, keyOf p = some k := by
  simp [keysOf, List.mem_filterMap]

theorem dictKeys_dictInsert (d : FDict) (k : FKey) (v : Finding) (q : FKey) :
    q ∈ dictKeys (dictInsert d k v) ↔ q = k ∨ q ∈ dictKeys d := by
  unfold dictInsert
  split
  next h =>
    have hk : k ∈ dictKeys d := (dict_hasKey d k).mp h
    have hkeys : dictKeys (d.map fun kv => if kv.1 = k then (kv.1, v) else kv)
        = dictKeys d := by
      unfold dictKeys
      rw [List.map_map]
      apply List.map_congr_left
      intro kv _
      by_cases hq : kv.1 = k <;> simp [hq]
    rw [hkeys]
    constructor
    · exact Or.inr
    · rintro (rfl | h2)
      · exact hk
      · exact h2
  next h =>
    unfold dictKeys
    simp [or_comm]

theorem dictInsert_of_not_mem (d : FDict) (k : FKey) (v : Finding)
    (h : k ∉ dictKeys d) : dictInsert d k v = d ++ [(k, v)] := by
  unfold dictInsert
  rw [if_neg]
  intro hc
  exact h ((dict_hasKey d k).mp hc)

/-- Well-formedness of a dict built by `dictInsert`: keys are distinct and
each stored finding carries its own key. -/
def dictWF (d : FDict) : Prop :=
  (dictKeys d).Nodup ∧ ∀ kv ∈ d, keyOf kv.2 = some kv.1

theorem dictWF_insert (d : FDict) (hwf : dictWF d) (k : FKey) (v : Finding)
    (hv : keyOf v = some k) : dictWF (dictInsert d k v) := by
  obtain ⟨hnd, hent⟩ := hwf
  unfold dictInsert
  split
  next h =>
    constructor
    · have hkeys : dictKeys (d.map fun kv => if kv.1 = k then (kv.1, v) else kv)
          = dictKeys d := by
        unfold dictKeys
        rw [List.map_map]
        apply List.map_congr_left
        intro kv _
        by_cases hq : kv.1 = k <;> simp [hq]
      rw [hkeys]; exact hnd
    · intro kv hkv
      rcases List.mem_map.mp hkv with ⟨kv0, hkv0, rfl⟩
      by_cases hq : kv0.1 = k
      · rw [if_pos hq, hq]
        exact hv
      · rw [if_neg hq]
        exact hent kv0 hkv0
  next h =>
    have hk : k ∉ dictKeys d := fun hc => h ((dict_hasKey d k).mpr hc)
    constructor
    · unfold dictKeys
      rw [List.map_append]
      simp only [List.map_cons, List.map_nil]
      exact List.Nodup.append hnd (List.nodup_singleton k)
        (by intro a ha hb; simp at hb; subst hb; exact hk ha)
    · intro kv hkv
      rcases List.mem_append.mp hkv with h1 | h1
      · exact hent kv h1
      · simp at h1; subst h1; exact hv

theorem dictWF_dictOfAux (vs : List Finding) :
    ∀ acc : FDict, dictWF acc → dictWF (dictOfAux acc vs) := by
  induction vs with
  | nil => intro acc h; exact h
  | cons v vs ih =>
    intro acc h
    unfold dictOfAux
    cases hk : keyOf v with
    | none => exact ih acc h
    | some k => exact ih _ (dictWF_insert acc h k v hk)

theorem dictWF_dictOf (vs : List Finding) : dictWF (dictOf vs) :=
  dictWF_dictOfAux vs [] ⟨List.nodup_nil, by intro kv h; cases h⟩

theorem buildDictAux_ok (vs : List Finding) (h : allKeysPresent vs) :
    ∀ acc : FDict, buildDictAux acc vs = .ok (dictOfAux acc vs) := by
  induction vs with
  | nil => intro acc; rfl
  | cons v vs ih =>
    intro acc
    have h1 : (keyOf v).isSome := h v (List.mem_cons_self v vs)
    unfold buildDictAux dictOfAux
    cases hk : keyOf v with
    | none => rw [hk] at h1; simp at h1
    | some k =>
      exact ih (fun u hu => h u (List.mem_cons_of_mem v hu)) _

theorem buildDictAux_error (vs : List Finding) (h : ¬ allKeysPresent vs) :
    ∀ acc : FDict, buildDictAux acc vs = .error .malformedFindingKey := by
  induction vs with
  | nil => exact absurd (by intro v hv; cases hv) h
  | cons v vs ih =>
    intro acc
    unfold buildDictAux
    cases hk : keyOf v with
    | none => rfl
    | some k =>
      apply ih
      intro hall
      apply h
      intro u hu
      rcases List.mem_cons.mp hu with rfl | hu2
      · rw [hk]; rfl
      · exact hall u hu2

theorem mem_dictKeys_dictOfAux (vs : List Finding) :
    ∀ (acc : FDict) (k : FKey),
      k ∈ dictKeys (dictOfAux acc vs) ↔ k ∈ dictKeys acc ∨ k ∈ keysOf vs := by
  induction vs with
  | nil => intro acc k; simp [dictOfAux, keysOf]
  | cons v vs ih =>
    intro acc k
    unfold dictOfAux
    cases hk : keyOf v with
    | none =>
      rw [ih]
      have : keysOf (v :: vs) = keysOf vs := by
        simp [keysOf, List.filterMap_cons, hk]
      rw [this]
    | some k0 =>
      rw [ih, dictKeys_dictInsert]
      have : keysOf (v :: vs) = k0 :: keysOf vs := by
        simp [keysOf, List.filterMap_cons, hk]
      rw [this]
      simp [List.mem_cons]
      tauto

theorem mem_dictKeys_dictOf (vs : List Finding) (k : FKey) :
    k ∈ dictKeys (dictOf vs) ↔ k ∈ keysOf vs := by
  rw [dictOf, mem_dictKeys_dictOfAux]
  simp [dictKeys]

/-- The entry list a key-unique finding list produces: one `(key, record)`
pair per keyed record, in list order. -/
def pairs (vs : List Finding) : FDict :=
  vs.filterMap (fun v => (keyOf v).map (fun k => (k, v)))

theorem pairs_cons_some (v : Finding) (vs : List Finding) (k : FKey)
    (hk : keyOf v = some k) : pairs (v :: vs) = (k, v) :: pairs vs := by
  simp [pairs, List.filterMap_cons, hk]

theorem pairs_cons_none (v : Finding) (vs : List Finding)
    (hk : keyOf v = none) : pairs (v :: vs) = pairs vs := by
  simp [pairs, List.filterMap_cons, hk]

theorem dictKeys_pairs (vs : List Finding) : dictKeys (pairs vs) = keysOf vs := by
  induction vs with
  | nil => rfl
  | cons v vs ih =>
    cases hk : keyOf v with
    | none =>
      rw [pairs_cons_none v vs hk]
      simp [keysOf, List.filterMap_cons, hk]
      exact ih
    | some k =>
      rw [pairs_cons_some v vs k hk]
      simp [dictKeys, keysOf, List.filterMap_cons, hk] at ih ⊢
      exact ih

theorem dictOfAux_eq_append_pairs (vs : List Finding) :
    ∀ acc : FDict, allKeysPresent vs → uniqKeys vs →
      (∀ k ∈ keysOf vs, k ∉ dictKeys acc) →
      dictOfAux acc vs = acc ++ pairs vs := by
  induction vs with
  | nil => intro acc _ _ _; simp [dictOfAux, pairs]
  | cons v vs ih =>
    intro acc hall huniq hfresh
    have h1 : (keyOf v).isSome := hall v (List.mem_cons_self v vs)
    cases hk : keyOf v with
    | none => rw [hk] at h1; simp at h1
    | some k =>
      have hkeys : keysOf (v :: vs) = k :: keysOf vs := by
        simp [keysOf, List.filterMap_cons, hk]
      have hknotin : k ∉ keysOf vs := by
        have := huniq
        unfold uniqKeys at this
        rw [hkeys] at this
        exact (List.nodup_cons.mp this).1
      have huniq2 : uniqKeys vs := by
        have := huniq
        unfold uniqKeys at this
        rw [hkeys] at this
        exact (List.nodup_cons.mp this).2
      have hkacc : k ∉ dictKeys acc := hfresh k (by rw [hkeys]; exact List.mem_cons_self k _)
      unfold dictOfAux
      rw [hk]
      show dictOfAux (dictInsert acc k v) vs = acc ++ pairs (v :: vs)
      rw [ih (dictInsert acc k v)
        (fun u hu => hall u (List.mem_cons_of_mem v hu)) huniq2 ?_]
      · rw [dictInsert_of_not_mem acc k v hkacc, List.append_assoc,
          pairs_cons_some v vs k hk]
        rfl
      · intro k2 hk2 hc
        rcases (dictKeys_dictInsert acc k v k2).mp hc with rfl | hc2
        · exact hknotin hk2
        · exact hfresh k2 (by rw [hkeys]; exact List.mem_cons_of_mem k hk2) hc2

theorem dictOf_eq_pairs (vs : List Finding) (h1 : allKeysPresent vs)
    (h2 : uniqKeys vs) : dictOf vs = pairs vs := by
  rw [dictOf, dictOfAux_eq_append_pairs vs [] h1 h2 (by intro k _ hc; cases hc)]
  rfl

theorem mem_keysOf_of (vs : List Finding) (p : Finding) (k : FKey)
    (hp : p ∈ vs) (hk : keyOf p = some k) : k ∈ keysOf vs :=
  (keysOf_mem_iff vs k).mpr ⟨p, hp, hk⟩

theorem mem_pairs_of (vs : List Finding) (p : Finding) (k : FKey)
    (hp : p ∈ vs) (hk : keyOf p = some k) : (k, p) ∈ pairs vs := by
  induction vs with
  | nil => cases hp
  | cons v vs ih =>
    rcases List.mem_cons.mp hp with rfl | hp2
    · rw [pairs_cons_some p vs k hk]
      exact List.mem_cons_self _ _
    · cases hkv : keyOf v with
      | none =>
        rw [pairs_cons_none v vs hkv]
        exact ih hp2
      | some k0 =>
        rw [pairs_cons_some v vs k0 hkv]
        exact List.mem_cons_of_mem _ (ih hp2)

theorem dictFind_pairs (vs : List Finding) (hu : uniqKeys vs) (k : FKey)
    (p : Finding) :
    dictFind (pairs vs) k = some p ↔ p ∈ vs ∧ keyOf p = some k := by
  induction vs with
  | nil => simp [pairs, dictFind]
  | cons v vs ih =>
    cases hkv : keyOf v with
    | none =>
      have hu2 : uniqKeys vs := by
        unfold uniqKeys at hu ⊢
        simpa [keysOf, List.filterMap_cons, hkv] using hu
      rw [pairs_cons_none v vs hkv, ih hu2]
      constructor
      · rintro ⟨hp, hk⟩; exact ⟨List.mem_cons_of_mem v hp, hk⟩
      · rintro ⟨hp, hk⟩
        rcases List.mem_cons.mp hp with rfl | hp2
        · rw [hkv] at hk; cases hk
        · exact ⟨hp2, hk⟩
    | some k0 =>
      have hkeys : keysOf (v :: vs) = k0 :: keysOf vs := by
        simp [keysOf, List.filterMap_cons, hkv]
      have hk0notin : k0 ∉ keysOf vs := by
        have := hu; unfold uniqKeys at this; rw [hkeys] at this
        exact (List.nodup_cons.mp this).1
      have hu2 : uniqKeys vs := by
        have := hu; unfold uniqKeys at this; rw [hkeys] at this
        exact (List.nodup_cons.mp this).2
      rw [pairs_cons_some v vs k0 hkv]
      by_cases hq : k0 = k
      · subst hq
        have : dictFind ((k0, v) :: pairs vs) k0 = some v := by
          simp [dictFind, List.find?]
        rw [this]
        constructor
        · rintro h
          injection h with h
          subst h
          exact ⟨List.mem_cons_self _ _, hkv⟩
        · rintro ⟨hp, hk⟩
          rcases List.mem_cons.mp hp with rfl | hp2
          · rfl
          · exact absurd (mem_keysOf_of vs p k0 hp2 hk) hk0notin
      · have : dictFind ((k0, v) :: pairs vs) k = dictFind (pairs vs) k := by
          simp [dictFind, List.find?, hq]
        rw [this, ih hu2]
        constructor
        · rintro ⟨hp, hk⟩; exact ⟨List.mem_cons_of_mem v hp, hk⟩
        · rintro ⟨hp, hk⟩
          rcases List.mem_cons.mp hp with rfl | hp2
          · rw [hkv] at hk; injection hk with hk; exact absurd hk hq
          · exact ⟨hp2, hk⟩

theorem countKey_cons (v : Finding) (vs : List Finding) (k : FKey) :
    countKey (v :: vs) k
      = (if keyOf v = some k then 1 else 0) + countKey vs k := by
  unfold countKey
  by_cases h : keyOf v = some k <;> simp [List.filter_cons, h, Nat.add_comm]

theorem countKey_append (xs ys : List Finding) (k : FKey) :
    countKey (xs ++ ys) k = countKey xs k + countKey ys k := by
  simp [countKey, List.filter_append]

theorem countKey_map (f : Finding → Finding)
    (hf : ∀ v, keyOf (f v) = keyOf v) (vs : List Finding) (k : FKey) :
    countKey (vs.map f) k = countKey vs k := by
  unfold countKey
  rw [List.filter_map, List.length_map]
  congr 1
  apply List.filter_congr
  intro v _
  simp [Function.comp, hf]

theorem countKey_eq_zero (vs : List Finding) (k : FKey) (h : k ∉ keysOf vs) :
    countKey vs k = 0 := by
  induction vs with
  | nil => rfl
  | cons v vs ih =>
    rw [countKey_cons]
    have hkv : ¬ keyOf v = some k := by
      intro hc
      exact h (mem_keysOf_of (v :: vs) v k (List.mem_cons_self v vs) hc)
    rw [if_neg hkv, ih (fun hc => h (by
      rcases (keysOf_mem_iff vs k).mp hc with ⟨p, hp, hpk⟩
      exact mem_keysOf_of (v :: vs) p k (List.mem_cons_of_mem v hp) hpk))]

theorem countKey_of_uniq (vs : List Finding) (hu : uniqKeys vs) (k : FKey)
    (hk : k ∈ keysOf vs) : countKey vs k = 1 := by
  induction vs with
  | nil => cases hk
  | cons v vs ih =>
    rw [countKey_cons]
    cases hkv : keyOf v with
    | none =>
      have hkeys : keysOf (v :: vs) = keysOf vs := by
        simp [keysOf, List.filterMap_cons, hkv]
      have hu2 : uniqKeys vs := by
        unfold uniqKeys at hu ⊢; rwa [hkeys] at hu
      rw [if_neg (by intro hc; cases hc)]
      rw [hkeys] at hk
      simpa using ih hu2 hk
    | some k0 =>
      have hkeys : keysOf (v :: vs) = k0 :: keysOf vs := by
        simp [keysOf, List.filterMap_cons, hkv]
      have hk0notin : k0 ∉ keysOf vs := by
        have := hu; unfold uniqKeys at this; rw [hkeys] at this
        exact (List.nodup_cons.mp this).1
      have hu2 : uniqKeys vs := by
        have := hu; unfold uniqKeys at this; rw [hkeys] at this
        exact (List.nodup_cons.mp this).2
      by_cases hq : k0 = k
      · subst hq
        rw [if_pos rfl, countKey_eq_zero vs k0 hk0notin]
      · rw [if_neg (by intro hc; injection hc with hc; exact hq hc)]
        rw [hkeys] at hk
        rcases List.mem_cons.mp hk with rfl | hk2
        · exact absurd rfl hq
        · simpa using ih hu2 hk2

theorem countKey_remPart (cd : FDict) (d : FDict) (hnd : (dictKeys d).Nodup)
    (hent : ∀ kv ∈ d, keyOf kv.2 = some kv.1) (k : FKey) :
    countKey ((d.filter (fun kv => decide (dictFind cd kv.1 = none))).map
        (fun kv => setStatus kv.2 "remediated")) k
      = if k ∈ dictKeys d ∧ dictFind cd k = none then 1 else 0 := by
  induction d with
  | nil => simp [countKey, dictKeys]
  | cons kv0 d ih =>
    have hnd2 : (dictKeys d).Nodup := by
      have := hnd
      unfold dictKeys at this
      rw [List.map_cons] at this
      exact (List.nodup_cons.mp this).2
    have h0notin : kv0.1 ∉ dictKeys d := by
      have := hnd
      unfold dictKeys at this
      rw [List.map_cons] at this
      exact (List.nodup_cons.mp this).1
    have hent2 : ∀ kv ∈ d, keyOf kv.2 = some kv.1 :=
      fun kv hkv => hent kv (List.mem_cons_of_mem kv0 hkv)
    have h0 : keyOf kv0.2 = some kv0.1 := hent kv0 (List.mem_cons_self kv0 d)
    have hmem : k ∈ dictKeys (kv0 :: d) ↔ k = kv0.1 ∨ k ∈ dictKeys d := by
      unfold dictKeys
      rw [List.map_cons]
      simp [eq_comm]
    rw [List.filter_cons]
    by_cases hq : dictFind cd kv0.1 = none
    · rw [if_pos (by simpa using hq)]
      rw [List.map_cons, countKey_cons, keyOf_setStatus, h0, ih hnd2 hent2]
      by_cases hk0 : k = kv0.1
      · subst hk0
        rw [if_pos rfl, if_neg (by rintro ⟨hc, _⟩; exact h0notin hc),
          if_pos ⟨hmem.mpr (Or.inl rfl), hq⟩]
      · rw [if_neg (by intro hc; injection hc with hc; exact hk0 hc.symm)]
        by_cases hk2 : k ∈ dictKeys d ∧ dictFind cd k = none
        · rw [if_pos hk2, if_pos ⟨hmem.mpr (Or.inr hk2.1), hk2.2⟩]
        · rw [if_neg hk2, if_neg (by
            rintro ⟨hc1, hc2⟩
            rcases hmem.mp hc1 with rfl | hc3
            · exact hk0 rfl
            · exact hk2 ⟨hc3, hc2⟩)]
    · rw [if_neg (by simpa using hq)]
      rw [ih hnd2 hent2]
      by_cases hk2 : k ∈ dictKeys d ∧ dictFind cd k = none
      · rw [if_pos hk2, if_pos ⟨hmem.mpr (Or.inr hk2.1), hk2.2⟩]
      · rw [if_neg hk2, if_neg (by
          rintro ⟨hc1, hc2⟩
          rcases hmem.mp hc1 with rfl | hc3
          · exact hq hc2
          · exact hk2 ⟨hc3, hc2⟩)]

/-- The success shape of the diff: when every input record carries its key,
`resolve_remediation_status` returns the annotated current findings followed
by the `remediated` copies of the previous-only findings. -/
theorem resolve_ok (cur prev : List Finding) (hc : allKeysPresent cur)
    (hp : allKeysPresent prev) :
    resolve_remediation_status cur prev =
      .ok (cur.map (annotateCurrent (dictOf prev)) ++
        ((dictOf prev).filter
            (fun kv => decide (dictFind (dictOf cur) kv.1 = none))).map
          (fun kv => setStatus kv.2 "remediated")) := by
  unfold resolve_remediation_status buildDict
  rw [buildDictAux_ok prev hp [], buildDictAux_ok cur hc []]
  rfl

/-!
Part 9: the claims.
-/

/-- Claim C1 (diff completeness): for every pair of input lists whose records
all carry their (asset_id, plugin_id) key, with at most one finding per key in
each list, `resolve_remediation_status` succeeds and its output contains every
key occurring in either input exactly once, each output record carrying a
remediation_status drawn from {open, reopened, remediated}. -/
theorem diff_completeness (cur prev : List Finding)
    (hc : allKeysPresent cur) (hp : allKeysPresent prev)
    (hcu : uniqKeys cur) (hpu : uniqKeys prev) :
    ∃ out, resolve_remediation_status cur prev = .ok out ∧
      (∀ k : FKey, countKey out k
        = if k ∈ keysOf cur ∨ k ∈ keysOf prev then 1 else 0) ∧
      (∀ v ∈ out, v.remediation_status = some "open" ∨
        v.remediation_status = some "reopened" ∨
        v.remediation_status = some "remediated") := by
  refine ⟨_, resolve_ok cur prev hc hp, ?_, ?_⟩
  · intro k
    rw [countKey_append,
      countKey_map _ (keyOf_annotateCurrent (dictOf prev)) cur k]
    obtain ⟨hnd, hent⟩ := dictWF_dictOf prev
    rw [countKey_remPart (dictOf cur) (dictOf prev) hnd hent k]
    by_cases hkc : k ∈ keysOf cur
    · rw [countKey_of_uniq cur hcu k hkc]
      have h2 : ¬ (k ∈ dictKeys (dictOf prev) ∧ dictFind (dictOf cur) k = none) := by
        rintro ⟨_, hfn⟩
        exact ((dictFind_eq_none (dictOf cur) k).mp hfn)
          ((mem_dictKeys_dictOf cur k).mpr hkc)
      rw [if_neg h2, if_pos (Or.inl hkc)]
    · rw [countKey_eq_zero cur k hkc]
      by_cases hkp : k ∈ keysOf prev
      · rw [if_pos ⟨(mem_dictKeys_dictOf prev k).mpr hkp,
          (dictFind_eq_none (dictOf cur) k).mpr
            (fun hmem => hkc ((mem_dictKeys_dictOf cur k).mp hmem))⟩,
          if_pos (Or.inr hkp)]
      · rw [if_neg (by
          rintro ⟨hmem, _⟩
          exact hkp ((mem_dictKeys_dictOf prev k).mp hmem)),
          if_neg (by tauto)]
  · intro v hv
    rcases List.mem_append.mp hv with h1 | h1
    · rcases List.mem_map.mp h1 with ⟨v0, hv0, rfl⟩
      have hk : (keyOf v0).isSome := hc v0 hv0
      cases hkv : keyOf v0 with
      | none => rw [hkv] at hk; simp at hk
      | some k =>
        cases hf : dictFind (dictOf prev) k with
        | none => left; simp [annotateCurrent, hkv, hf, setStatus]
        | some p =>
          by_cases hs : p.remediation_status = some "remediated"
          · right; left; simp [annotateCurrent, hkv, hf, hs, setStatus]
          · left; simp [annotateCurrent, hkv, hf, hs, setStatus]
    · rcases List.mem_map.mp h1 with ⟨kv, hkv, rfl⟩
      right; right
      exact status_setStatus kv.2 "remediated"

/-- Witness for C1 at the spec's concrete scenario (previous open set
{(A,V1): open, (A,V2): open}, current scan {(A,V1), (A,V3)}). -/
theorem diff_completeness_witness :
    ∃ out, resolve_remediation_status
        [⟨some "A", some "V1", none, []⟩, ⟨some "A", some "V3", none, []⟩]
        [⟨some "A", some "V1", some "open", []⟩,
          ⟨some "A", some "V2", some "open", []⟩] = .ok out ∧
      (∀ k : FKey, countKey out k
        = if k ∈ keysOf [⟨some "A", some "V1", none, []⟩,
              ⟨some "A", some "V3", none, []⟩] ∨
            k ∈ keysOf [⟨some "A", some "V1", some "open", []⟩,
              ⟨some "A", some "V2", some "open", []⟩] then 1 else 0) ∧
      (∀ v ∈ out, v.remediation_status = some "open" ∨
        v.remediation_status = some "reopened" ∨
        v.remediation_status = some "remediated") :=
  diff_completeness
    [⟨some "A", some "V1", none, []⟩, ⟨some "A", some "V3", none, []⟩]
    [⟨some "A", some "V1", some "open", []⟩,
      ⟨some "A", some "V2", some "open", []⟩]
    (by decide) (by decide) (by decide) (by decide)

/-- Claim C2 (transition rule for keys present in the current scan): a
current-scan finding is emitted with status `reopened` when the previous list
holds a record for its key whose status is `remediated`, and with status
`open` in every other case — previous status not `remediated`, or no previous
record at all. -/
theorem current_transition_rule (cur prev : List Finding)
    (hc : allKeysPresent cur) (hp : allKeysPresent prev) (hpu : uniqKeys prev)
    (v : Finding) (hv : v ∈ cur) (k : FKey) (hk : keyOf v = some k) :
    ∃ out, resolve_remediation_status cur prev = .ok out ∧
      ((∃ p ∈ prev, keyOf p = some k ∧ p.remediation_status = some "remediated") →
        setStatus v "reopened" ∈ out) ∧
      ((∀ p ∈ prev, keyOf p = some k → p.remediation_status ≠ some "remediated") →
        setStatus v "open" ∈ out) := by
  refine ⟨_, resolve_ok cur prev hc hp, ?_, ?_⟩
  · rintro ⟨p, hpmem, hpk, hps⟩
    have hfind : dictFind (dictOf prev) k = some p := by
      rw [dictOf_eq_pairs prev hp hpu]
      exact (dictFind_pairs prev hpu k p).mpr ⟨hpmem, hpk⟩
    have hann : annotateCurrent (dictOf prev) v = setStatus v "reopened" := by
      simp [annotateCurrent, hk, hfind, hps]
    rw [← hann]
    exact List.mem_append_left _ (List.mem_map_of_mem _ hv)
  · intro hnone
    have hann : annotateCurrent (dictOf prev) v = setStatus v "open" := by
      cases hfind : dictFind (dictOf prev) k with
      | none => simp [annotateCurrent, hk, hfind]
      | some p =>
        rw [dictOf_eq_pairs prev hp hpu] at hfind
        obtain ⟨hpmem, hpk⟩ := (dictFind_pairs prev hpu k p).mp hfind
        have hps := hnone p hpmem hpk
        rw [dictOf_eq_pairs prev hp hpu]
        simp [annotateCurrent, hk, hfind, hps]
    rw [← hann]
    exact List.mem_append_left _ (List.mem_map_of_mem _ hv)

/-- Witness for C2 at the spec's reopening scenario (previous set
{(A,V1): remediated}, current scan {(A,V1)}: the reopened branch applies)
together with its first-sighting branch on a fresh key. -/
theorem current_transition_rule_witness :
    ∃ out, resolve_remediation_status
        [⟨some "A", some "V1", none, []⟩]
        [⟨some "A", some "V1", some "remediated", []⟩] = .ok out ∧
      ((∃ p ∈ [⟨some "A", some "V1", some "remediated", ([] : List (String × String))⟩],
          keyOf p = some ("A", "V1") ∧ p.remediation_status = some "remediated") →
        setStatus ⟨some "A", some "V1", none, []⟩ "reopened" ∈ out) ∧
      ((∀ p ∈ [⟨some "A", some "V1", some "remediated", ([] : List (String × String))⟩],
          keyOf p = some ("A", "V1") → p.remediation_status ≠ some "remediated") →
        setStatus ⟨some "A", some "V1", none, []⟩ "open" ∈ out) :=
  current_transition_rule
    [⟨some "A", some "V1", none, []⟩]
    [⟨some "A", some "V1", some "remediated", []⟩]
    (by decide) (by decide) (by decide)
    ⟨some "A", some "V1", none, []⟩ (by decide) ("A", "V1") (by decide)

/-- Claim C3 (frame property of synthesized remediation records): a
previous-list record whose key is absent from the current scan yields exactly
one output record for that key, equal to the previous record with only
remediation_status changed, to `remediated`; asset_id, plugin_id and all
remaining fields are untouched. -/
theorem remediated_frame_property (cur prev : List Finding)
    (hc : allKeysPresent cur) (hp : allKeysPresent prev) (hpu : uniqKeys prev)
    (p : Finding) (hpmem : p ∈ prev) (k : FKey) (hk : keyOf p = some k)
    (habs : k ∉ keysOf cur) :
    ∃ out, resolve_remediation_status cur prev = .ok out ∧
      countKey out k = 1 ∧
      setStatus p "remediated" ∈ out ∧
      (setStatus p "remediated").asset_id = p.asset_id ∧
      (setStatus p "remediated").plugin_id = p.plugin_id ∧
      (setStatus p "remediated").rest = p.rest ∧
      (setStatus p "remediated").remediation_status = some "remediated" := by
  have hfn : dictFind (dictOf cur) k = none :=
    (dictFind_eq_none (dictOf cur) k).mpr
      (fun hmem => habs ((mem_dictKeys_dictOf cur k).mp hmem))
  refine ⟨_, resolve_ok cur prev hc hp, ?_, ?_, rfl, rfl, rfl, rfl⟩
  · rw [countKey_append,
      countKey_map _ (keyOf_annotateCurrent (dictOf prev)) cur k,
      countKey_eq_zero cur k habs]
    obtain ⟨hnd, hent⟩ := dictWF_dictOf prev
    rw [countKey_remPart (dictOf cur) (dictOf prev) hnd hent k,
      if_pos ⟨(mem_dictKeys_dictOf prev k).mpr (mem_keysOf_of prev p k hpmem hk),
        hfn⟩]
  · have hpair : (k, p) ∈ (dictOf prev).filter
        (fun kv => decide (dictFind (dictOf cur) kv.1 = none)) := by
      apply List.mem_filter.mpr
      constructor
      · rw [dictOf_eq_pairs prev hp hpu]
        exact mem_pairs_of prev p k hpmem hk
      · simpa using hfn
    exact List.mem_append_right _
      (List.mem_map_of_mem (fun kv => setStatus kv.2 "remediated") hpair)

/-- Witness for C3 at the spec's concrete scenario: (A,V2) is open in the
previous set and absent from the current scan, so a `remediated` copy of its
previous record (other fields intact) appears exactly once. -/
theorem remediated_frame_property_witness :
    ∃ out, resolve_remediation_status
        [⟨some "A", some "V1", none, []⟩]
        [⟨some "A", some "V1", some "open", []⟩,
          ⟨some "A", some "V2", some "open", [("port", "443")]⟩] = .ok out ∧
      countKey out ("A", "V2") = 1 ∧
      setStatus ⟨some "A", some "V2", some "open", [("port", "443")]⟩
        "remediated" ∈ out ∧
      (setStatus ⟨some "A", some "V2", some "open", [("port", "443")]⟩
        "remediated").asset_id
        = (Finding.mk (some "A") (some "V2") (some "open") [("port", "443")]).asset_id ∧
      (setStatus ⟨some "A", some "V2", some "open", [("port", "443")]⟩
        "remediated").plugin_id
        = (Finding.mk (some "A") (some "V2") (some "open") [("port", "443")]).plugin_id ∧
      (setStatus ⟨some "A", some "V2", some "open", [("port", "443")]⟩
        "remediated").rest
        = (Finding.mk (some "A") (some "V2") (some "open") [("port", "443")]).rest ∧
      (setStatus ⟨some "A", some "V2", some "open", [("port", "443")]⟩
        "remediated").remediation_status = some "remediated" :=
  remediated_frame_property
    [⟨some "A", some "V1", none, []⟩]
    [⟨some "A", some "V1", some "open", []⟩,
      ⟨some "A", some "V2", some "open", [("port", "443")]⟩]
    (by decide) (by decide) (by decide)
    ⟨some "A", some "V2", some "open", [("port", "443")]⟩ (by decide)
    ("A", "V2") (by decide) (by decide)

/-- Claim C5 (MalformedFindingKey failure semantics): if any finding in
either input list lacks its asset_id or plugin_id field, the diff fails with
`MalformedFindingKey` (no output list is produced, so the finding is never
silently dropped). -/
theorem malformed_key_fails (cur prev : List Finding)
    (h : ∃ v, (v ∈ cur ∨ v ∈ prev) ∧ keyOf v = none) :
    resolve_remediation_status cur prev = .error .malformedFindingKey := by
  obtain ⟨v, hv, hkv⟩ := h
  unfold resolve_remediation_status buildDict
  by_cases hp : allKeysPresent prev
  · have hcur : ¬ allKeysPresent cur := by
      rcases hv with hvc | hvp
      · intro hall
        have := hall v hvc
        rw [hkv] at this
        simp at this
      · have := hp v hvp
        rw [hkv] at this
        simp at this
    rw [buildDictAux_ok prev hp [], buildDictAux_error cur hcur []]
  · rw [buildDictAux_error prev hp []]

/-- Witness for C5: a current finding without a plugin_id makes the whole
diff fail with `MalformedFindingKey`. -/
theorem malformed_key_fails_witness :
    resolve_remediation_status [⟨some "A", none, none, []⟩] []
      = .error .malformedFindingKey :=
  malformed_key_fails [⟨some "A", none, none, []⟩] []
    ⟨⟨some "A", none, none, []⟩, Or.inl (by decide), by decide⟩

/-- Claim C4 (fingerprint priority cascade): a present (truthy) MAC address
always wins with the `mac:` form regardless of the other attributes; else a
present OS descriptor gives the `ip_os:` form with non-alphanumerics stripped
and lowercased; else a non-empty hostname gives the `ip_host:` form; else the
bare `ip:` form. -/
theorem fingerprint_priority_cascade (hostname ip_address : String)
    (mac_address os_info : Option String) :
    (truthy mac_address = true →
      generate_asset_fingerprint hostname ip_address mac_address os_info
        = "mac:" ++ str_lower (mac_address.getD "")) ∧
    (truthy mac_address = false → truthy os_info = true →
      generate_asset_fingerprint hostname ip_address mac_address os_info
        = "ip_os:" ++ ip_address ++ ":" ++ clean_os (os_info.getD "")) ∧
    (truthy mac_address = false → truthy os_info = false → hostname ≠ "" →
      generate_asset_fingerprint hostname ip_address mac_address os_info
        = "ip_host:" ++ ip_address ++ ":" ++ str_lower hostname) ∧
    (truthy mac_address = false → truthy os_info = false → hostname = "" →
      generate_asset_fingerprint hostname ip_address mac_address os_info
        = "ip:" ++ ip_address) := by
  refine ⟨?_, ?_, ?_, ?_⟩
  · intro h1
    simp [generate_asset_fingerprint, h1]
  · intro h1 h2
    simp [generate_asset_fingerprint, h1, h2]
  · intro h1 h2 h3
    simp [generate_asset_fingerprint, h1, h2, h3]
  · intro h1 h2 h3
    subst h3
    simp [generate_asset_fingerprint, h1, h2]

/-- Witness for C4: the MAC branch beats a simultaneously present hostname
and OS, and with no MAC the OS branch strips and lowercases. -/
theorem fingerprint_priority_cascade_witness :
    generate_asset_fingerprint "MyHost" "10.0.0.5" (some "AA:BB:CC")
        (some "Windows 10") = "mac:aa:bb:cc" ∧
    generate_asset_fingerprint "MyHost" "10.0.0.5" none (some "Windows 10!")
        = "ip_os:10.0.0.5:windows10" ∧
    generate_asset_fingerprint "MyHost" "10.0.0.5" none none
        = "ip_host:10.0.0.5:myhost" ∧
    generate_asset_fingerprint "" "10.0.0.5" (some "") none = "ip:10.0.0.5" := by
  refine ⟨?_, ?_, ?_, ?_⟩
  · have := (fingerprint_priority_cascade "MyHost" "10.0.0.5" (some "AA:BB:CC")
      (some "Windows 10")).1 (by decide)
    rw [this]
    decide
  · have := (fingerprint_priority_cascade "MyHost" "10.0.0.5" none
      (some "Windows 10!")).2.1 (by decide) (by decide)
    rw [this]
    decide
  · have := (fingerprint_priority_cascade "MyHost" "10.0.0.5" none
      none).2.2.1 (by decide) (by decide) (by decide)
    rw [this]
    decide
  · have := (fingerprint_priority_cascade "" "10.0.0.5" (some "")
      none).2.2.2 (by decide) (by decide) (by decide)
    rw [this]
    decide

/-- Claim C6 (code bug): with no remediated findings — the RPC yields zero
rows — `calculate_overall_mttr` does not return the no-data marker its
docstring promises ("None if no data"); it falls back to
`_calculate_mttr_fallback`, which returns the hardcoded numeric placeholder
`30.0`. -/
theorem mttr_placeholder_on_no_data :
    calculate_overall_mttr (some []) = some 30 ∧
    calculate_overall_mttr (some []) ≠ none ∧
    calculate_mttr_fallback = some 30 := by
  refine ⟨rfl, ?_, rfl⟩
  intro h
  cases h

/-- Claim C7 counterexample: with a zero denominator (no findings at all) the
remediation rate is the number `0`, not an explicit no-data marker — the
claim's "not zero" fails at this input. -/
theorem remediation_capacity_zero_denominator :
    (calculate_remediation_capacity (some 0) (some 0)).remediation_rate_percentage
      = 0 ∧
    (calculate_remediation_capacity none none).remediation_rate_percentage = 0 := by
  constructor <;>
    norm_num [calculate_remediation_capacity, round2, bankersRound]

/-- Claim C7 as amended: the rate is remediated/total as a percentage
(15 remediated of 20 total gives 75.0), and a non-positive total yields the
numeric rate `0` rather than a no-data marker. -/
theorem remediation_capacity_amended (totalRes openRes : Option ℕ)
    (hz : totalRes.getD 0 = 0) :
    (calculate_remediation_capacity totalRes openRes).remediation_rate_percentage
      = 0 ∧
    (calculate_remediation_capacity (some 20) (some 5)).remediated_vulnerabilities
      = 15 ∧
    (calculate_remediation_capacity (some 20) (some 5)).remediation_rate_percentage
      = 75 := by
  refine ⟨?_, by norm_num [calculate_remediation_capacity], ?_⟩
  · have h0 : ((totalRes.getD 0 : ℕ) : ℤ) = 0 := by rw [hz]; rfl
    simp only [calculate_remediation_capacity, h0]
    norm_num [round2, bankersRound]
  · norm_num [calculate_remediation_capacity, round2, bankersRound]

/-- Witness for C7 (amended) at an empty store with a nonzero open count. -/
theorem remediation_capacity_amended_witness :
    (calculate_remediation_capacity (some 0) (some 7)).remediation_rate_percentage
      = 0 ∧
    (calculate_remediation_capacity (some 20) (some 5)).remediated_vulnerabilities
      = 15 ∧
    (calculate_remediation_capacity (some 20) (some 5)).remediation_rate_percentage
      = 75 :=
  remediation_capacity_amended (some 0) (some 7) rfl

/-- Claim C8 counterexample: the transformer's severity lookup — one of the
two cited normalization sites — maps `"0"` to `"Info"` (not `"None"`) and
falls back to `"Info"` (not `"Unknown"`) outside the known domain, so the
claimed single normalization table does not hold across the cited code. -/
theorem severity_lookup_divergence :
    transformer_severity_lookup "0" ≠ "None" ∧
    transformer_severity_lookup "5" ≠ "Unknown" := by
  decide

/-- Claim C8 as amended: the extractor's `_map_severity_to_risk` is the total
pure lookup of the claim — codes 0..4 map to None/Low/Medium/High/Critical
and anything else to `Unknown` — while the transformer's parallel
`severity_mapping` lookup instead maps `"0"` to `"Info"` and anything outside
0..4 to `"Info"`. -/
theorem severity_normalization_amended (s : String)
    (hs : s ≠ "0" ∧ s ≠ "1" ∧ s ≠ "2" ∧ s ≠ "3" ∧ s ≠ "4") :
    map_severity_to_risk "0" = "None" ∧
    map_severity_to_risk "1" = "Low" ∧
    map_severity_to_risk "2" = "Medium" ∧
    map_severity_to_risk "3" = "High" ∧
    map_severity_to_risk "4" = "Critical" ∧
    map_severity_to_risk s = "Unknown" ∧
    transformer_severity_lookup "0" = "Info" ∧
    transformer_severity_lookup s = "Info" := by
  obtain ⟨h0, h1, h2, h3, h4⟩ := hs
  refine ⟨rfl, rfl, rfl, rfl, rfl, ?_, rfl, ?_⟩
  · simp [map_severity_to_risk, h0, h1, h2, h3, h4]
  · simp [transformer_severity_lookup, h0, h1, h2, h3, h4]

/-- Witness for C8 (amended) at the out-of-domain code `"banana"`. -/
theorem severity_normalization_amended_witness :
    map_severity_to_risk "0" = "None" ∧
    map_severity_to_risk "1" = "Low" ∧
    map_severity_to_risk "2" = "Medium" ∧
    map_severity_to_risk "3" = "High" ∧
    map_severity_to_risk "4" = "Critical" ∧
    map_severity_to_risk "banana" = "Unknown" ∧
    transformer_severity_lookup "0" = "Info" ∧
    transformer_severity_lookup "banana" = "Info" :=
  severity_normalization_amended "banana" (by decide)

/-- Claim C9 counterexample: an IP-less record does fail with the
missing-required-attribute error and the batch continues, but `load_assets`
returns only a count — the batch with the failing record returns exactly the
same value as the batch without it, so no returned error list can name the
dropped record. -/
theorem load_assets_no_error_list :
    upsert_asset (fun _ => some "id-1") ⟨"bad-host", ""⟩
      = .error .missingRequiredAttribute ∧
    load_assets (fun _ => some "id-1")
        [⟨"good-host", "10.0.0.1"⟩, ⟨"bad-host", ""⟩]
      = load_assets (fun _ => some "id-1") [⟨"good-host", "10.0.0.1"⟩] ∧
    load_assets (fun _ => some "id-1")
        [⟨"good-host", "10.0.0.1"⟩, ⟨"bad-host", ""⟩] = 1 := by
  refine ⟨rfl, rfl, rfl⟩

/-- Claim C9 as amended: a record without an IP fails alone with the
missing-required-attribute error and the loop continues with the remaining
records, but only the success count is returned — the failing record leaves
no trace in the return value (it is logged, not collected into a returned
error list). -/
theorem load_assets_isolation (db : AssetData → Option String)
    (pre post : List AssetData) (bad : AssetData) (h : bad.asset_ip = "") :
    upsert_asset db bad = .error .missingRequiredAttribute ∧
    load_assets db (pre ++ bad :: post) = load_assets db (pre ++ post) := by
  have herr : upsert_asset db bad = .error .missingRequiredAttribute := by
    unfold upsert_asset
    rw [if_pos h]
  refine ⟨herr, ?_⟩
  induction pre with
  | nil => simp [load_assets, herr]
  | cons a pre ih =>
    simp only [List.cons_append, load_assets]
    cases hua : upsert_asset db a <;> simp [hua, ih]

/-- Witness for C9 (amended): the failing middle record is skipped and the
two flanking records are counted. -/
theorem load_assets_isolation_witness :
    upsert_asset (fun a => some a.asset_name) ⟨"bad-host", ""⟩
      = .error .missingRequiredAttribute ∧
    load_assets (fun a => some a.asset_name)
        ([⟨"h1", "10.0.0.1"⟩] ++ ⟨"bad-host", ""⟩ :: [⟨"h2", "10.0.0.2"⟩])
      = load_assets (fun a => some a.asset_name)
        ([⟨"h1", "10.0.0.1"⟩] ++ [⟨"h2", "10.0.0.2"⟩]) :=
  load_assets_isolation (fun a => some a.asset_name)
    [⟨"h1", "10.0.0.1"⟩] [⟨"h2", "10.0.0.2"⟩] ⟨"bad-host", ""⟩ rfl

/-- Claim C10 counterexample: a report item with severity code `"5"` passes
the `"0"` filter and is emitted with severity outside {1,2,3,4} and risk
`"Unknown"`, outside {Low, Medium, High, Critical}. -/
theorem extract_retains_unknown_severity :
    extract_vulnerabilities
        [⟨some "10.0.0.1", [], [⟨some "5", some "99999", some "Test Plugin"⟩]⟩]
      = [⟨"10.0.0.1", "10.0.0.1", "99999", "Test Plugin", "5", "Unknown"⟩] ∧
    ¬ ("5" ∈ (["1", "2", "3", "4"] : List String)) ∧
    ¬ ("Unknown" ∈ (["Low", "Medium", "High", "Critical"] : List String)) := by
  decide

/-- Claim C10 as amended: extraction omits exactly the items whose severity
code is `"0"`; every emitted record has severity ≠ `"0"`, risk derived by the
severity map (hence never `"None"`), and risk in {Low, Medium, High,
Critical} whenever the severity code is in {1,2,3,4} — codes outside the
known domain are retained with risk `"Unknown"`. -/
theorem extract_severity_invariant (hosts : List ReportHost) (r : VulnRecord)
    (hr : r ∈ extract_vulnerabilities hosts) :
    r.severity ≠ "0" ∧
    r.risk = map_severity_to_risk r.severity ∧
    r.risk ≠ "None" ∧
    (r.severity ∈ (["1", "2", "3", "4"] : List String) →
      r.risk ∈ (["Low", "Medium", "High", "Critical"] : List String)) := by
  rcases List.mem_flatMap.mp hr with ⟨h, hh, hr2⟩
  rcases List.mem_map.mp hr2 with ⟨it, hit, rfl⟩
  have hsev : ¬ (it.severity.getD "0" = "0") := by
    have := (List.mem_filter.mp hit).2
    simpa using this
  refine ⟨hsev, rfl, ?_, ?_⟩
  · show map_severity_to_risk (it.severity.getD "0") ≠ "None"
    unfold map_severity_to_risk
    rw [if_neg hsev]
    split_ifs <;> decide
  · intro hmem
    have hs : (extractItem (get_host_properties h) it).severity
        = it.severity.getD "0" := rfl
    have hrk : (extractItem (get_host_properties h) it).risk
        = map_severity_to_risk (it.severity.getD "0") := rfl
    rw [hs] at hmem
    rw [hrk]
    simp only [List.mem_cons, List.not_mem_nil, or_false] at hmem
    rcases hmem with h5 | h5 | h5 | h5 <;> rw [h5] <;> decide

/-- Witness for C10 (amended) on a single-host report with one severity-3
item. -/
theorem extract_severity_invariant_witness :
    (⟨"10.0.0.1", "10.0.0.1", "1234", "Thing", "3", "High"⟩ : VulnRecord).severity
      ≠ "0" ∧
    (⟨"10.0.0.1", "10.0.0.1", "1234", "Thing", "3", "High"⟩ : VulnRecord).risk
      = map_severity_to_risk
        (⟨"10.0.0.1", "10.0.0.1", "1234", "Thing", "3", "High"⟩ : VulnRecord).severity ∧
    (⟨"10.0.0.1", "10.0.0.1", "1234", "Thing", "3", "High"⟩ : VulnRecord).risk
      ≠ "None" ∧
    ((⟨"10.0.0.1", "10.0.0.1", "1234", "Thing", "3", "High"⟩ : VulnRecord).severity
        ∈ (["1", "2", "3", "4"] : List String) →
      (⟨"10.0.0.1", "10.0.0.1", "1234", "Thing", "3", "High"⟩ : VulnRecord).risk
        ∈ (["Low", "Medium", "High", "Critical"] : List String)) :=
  extract_severity_invariant
    [⟨some "10.0.0.1", [], [⟨some "3", some "1234", some "Thing"⟩]⟩]
    ⟨"10.0.0.1", "10.0.0.1", "1234", "Thing", "3", "High"⟩ (by decide)

end Nessus
